import Mathlib

/-!
Verification of the StickyStudy deck-synchronization core
(`stickystudy/deck.py`, `stickystudy/main.py`).

The embedding models text as `List Char` (`Str`) so that file contents can be
reasoned about byte-for-byte and all definitions compute by structural
recursion.  A deck file is a `Str`; a loaded deck is a `StickyStudyDeck`
holding an optional header (the raw first two lines, as stored by
`StickyStudyDeck.load`) and a list of `Card` rows (the rows of the pandas
DataFrame, including the derived `timestamp` column).

Modelling notes, matching the Python source:
  * `pd.read_table` behaviour is modelled for deck files in the format of
    section 6 of the spec: tab-separated rows, blank lines skipped, and a
    `study_data` field read as missing (`pandas` NaN) when it is empty or
    one of pandas' default NA strings (`NULL`, `NaN`, ... — the
    `PANDAS_NA_STRINGS` list below); `study_data` is the one column whose
    string-versus-missing distinction the source inspects.  A row whose
    field count differs from the five deck columns is a load failure (the
    spec's `FormatError`).  Whole-column numeric dtype inference — which
    can only turn string cells into non-string ones — and the CSV quote
    character are not modelled; the model is conservative there (it can
    reject a file the real loader would accept, never the reverse), and
    statements about loaded cards below are confined to cells the loader
    delivers as strings, the same set the real loader constrains.
  * Python `int(s)` is modelled as an optional sign followed by digits.
    (CPython also accepts surrounding whitespace and digit-grouping
    underscores; no input considered here uses them, and the split on `_`
    performed by the source strips underscores anyway.)
  * `DataFrame.sort_values(by='timestamp')` is modelled as an insertion
    sort placing missing timestamps last (pandas' documented
    `na_position='last'` default).  pandas' default sort kind is numpy's
    quicksort, which does not guarantee the relative order of rows with
    equal non-missing timestamps; every theorem below uses `sortTs` only
    through properties independent of that tie order (it is a permutation,
    it orders distinct timestamps, missing timestamps go last).
-/

namespace StickyStudy

/-- Text is modelled as a list of characters. -/
abbrev Str := List Char

/-- Split a character list on a separator, like Python `str.split(sep)`
for a one-character separator: `splitBy '_' "a_b" = ["a", "b"]` and
`splitBy '_' "" = [""]`. -/
def splitBy (sep : Char) : Str → List Str
  | [] => [[]]
  | c :: cs =>
    match splitBy sep cs with
    | [] => [[c]]
    | g :: gs => if c = sep then [] :: g :: gs else (c :: g) :: gs

/-- Split a file into lines the way Python file iteration does: each line
keeps its trailing newline, and a final fragment without a newline is its
own line.  `pyLines "a\nb" = ["a\n", "b"]`, `pyLines "" = []`. -/
def pyLines : Str → List Str
  | [] => []
  | c :: cs =>
    if c = '\n' then [c] :: pyLines cs
    else
      match pyLines cs with
      | [] => [[c]]
      | l :: ls => (c :: l) :: ls

/-- Remove a trailing newline from a line, as the tabular reader sees row
content without the line terminator. -/
def stripNL (l : Str) : Str :=
  if l.getLast? = some '\n' then l.dropLast else l

/-- Python slice `s[1:-1]`: drop the first and last character. -/
def pyMid (s : Str) : Str := (s.drop 1).dropLast

/-- First segment of `s.split('_')`, i.e. Python `s.split('_')[0]`. -/
def firstSeg (s : Str) : Str := (splitBy '_' s).headD []

/-- Accumulate a decimal value over a run of digits; `none` on the first
non-digit character. -/
def digitsVal (acc : Nat) : Str → Option Nat
  | [] => some acc
  | c :: cs => if c.isDigit then digitsVal (acc * 10 + (c.toNat - 48)) cs else none

/-- Python `int(s)` on a string: optional sign, then one or more digits;
`none` models the `ValueError` raised on any other shape. -/
def pyInt? : Str → Option Int
  | [] => none
  | '-' :: cs =>
    if cs.isEmpty then none else (digitsVal 0 cs).map (fun n => -(n : Int))
  | '+' :: cs =>
    if cs.isEmpty then none else (digitsVal 0 cs).map (fun n => (n : Int))
  | cs => (digitsVal 0 cs).map (fun n => (n : Int))

/-- Python `line.startswith('-' * 5)`: the header sentinel test of
`StickyStudyDeck.load` (deck.py line 55). -/
def dashSentinel (l : Str) : Bool :=
  decide (l.take 5 = "-----".data)

/-- One row of a deck's DataFrame: the five deck columns
`question, on'yomi, kun'yomi, answer, study_data` (deck.py `DECK_COLS`)
plus the derived `timestamp` column added by `load`.  `study_data = none`
models a pandas NaN (blank field); `timestamp = none` models `pd.NA`. -/
structure Card where
  question : Str
  on_reading : Str
  kun_reading : Str
  answer : Str
  study_data : Option Str
  timestamp : Option Int
deriving DecidableEq

/-- The identity key of a card: the four columns `DECK_COLS[:-1]` used by
`drop_duplicates` in `__or__` and `update_other`. -/
abbrev DeckKey := Str × Str × Str × Str

/-- Project a card to its identity key. -/
def keyOf (c : Card) : DeckKey :=
  (c.question, c.on_reading, c.kun_reading, c.answer)

/-- Boolean test that a card has a given identity key. -/
def fkey (k : DeckKey) (c : Card) : Bool := decide (keyOf c = k)

/-- A StickyStudy deck: optional header lines plus the card table
(deck.py `StickyStudyDeck`). -/
structure StickyStudyDeck where
  header : Option (List Str)
  data : List Card
deriving DecidableEq

/-- Decidable equality for `Except`, so that concrete runs of the
fallible operations can be checked by `decide`. -/
instance exceptDecEq {ε α : Type} [DecidableEq ε] [DecidableEq α] :
    DecidableEq (Except ε α) := fun x y =>
  match x, y with
  | .error a, .error b =>
    if h : a = b then .isTrue (by rw [h]) else .isFalse (by intro hh; cases hh; exact h rfl)
  | .error _, .ok _ => .isFalse (by intro hh; cases hh)
  | .ok _, .error _ => .isFalse (by intro hh; cases hh)
  | .ok a, .ok b =>
    if h : a = b then .isTrue (by rw [h]) else .isFalse (by intro hh; cases hh; exact h rfl)

/-- Timestamp extraction for one row (deck.py line 59):
`int(sd[1:-1].split('_')[0]) if isinstance(sd, str) else pd.NA`.
A missing `study_data` yields no timestamp; a present one whose first
underscore-delimited segment between the delimiter characters is not
numeric raises `ValueError`, modelled as `.error ()`. -/
def rowTimestampE : Option Str → Except Unit (Option Int)
  | none => .ok none
  | some sd =>
    match pyInt? (firstSeg (pyMid sd)) with
    | some n => .ok (some n)
    | none => .error ()

/-- Attach the derived timestamp column to a parsed row. -/
def addTimestampE (c : Card) : Except Unit Card :=
  match rowTimestampE c.study_data with
  | .ok ts => .ok { c with timestamp := ts }
  | .error e => .error e

/-- The strings `pd.read_table` converts to NaN by default
(`keep_default_na=True`): pandas' documented default `na_values` list,
plus the empty field. -/
def PANDAS_NA_STRINGS : List Str :=
  ["".data, "#N/A".data, "#N/A N/A".data, "#NA".data, "-1.#IND".data,
   "-1.#QNAN".data, "-NaN".data, "-nan".data, "1.#IND".data, "1.#QNAN".data,
   "<NA>".data, "N/A".data, "NA".data, "NULL".data, "NaN".data, "None".data,
   "n/a".data, "nan".data, "null".data]

/-- Parse one data line into the five deck columns; a row with the wrong
column count is a load failure (spec section 4.2, `FormatError`).  A
`study_data` field that is empty or a pandas default NA string is read as
missing (NaN), so `isinstance(sd, str)` is false for it and timestamp
extraction skips it. -/
def parseRowE (line : Str) : Except Unit Card :=
  match splitBy '\t' (stripNL line) with
  | [q, onr, kunr, ans, sd] =>
    .ok { question := q, on_reading := onr, kun_reading := kunr, answer := ans,
          study_data := if sd ∈ PANDAS_NA_STRINGS then none else some sd,
          timestamp := none }
  | _ => .error ()

/-- Effectful map over a list in the `Except` monad, evaluated left to
right with the first failure winning. -/
def mapME (f : α → Except Unit β) : List α → Except Unit (List β)
  | [] => .ok []
  | a :: as =>
    match f a with
    | .error e => .error e
    | .ok b =>
      match mapME f as with
      | .error e => .error e
      | .ok bs => .ok (b :: bs)

/-- `StickyStudyDeck.load` (deck.py lines 46-60).  Reads two lines with
`next(f)` (raising, modelled as `.error ()`, when the file has fewer than
two lines), records both lines as the header unconditionally, consumes them
as data only when the second starts with the dash sentinel, parses the
remaining tab-separated rows, and derives the `timestamp` column. -/
def loadE (file : Str) : Except Unit StickyStudyDeck :=
  match pyLines file with
  | l0 :: l1 :: rest =>
    let skiprows := if dashSentinel l1 then 2 else 0
    let dataLines := ((l0 :: l1 :: rest).drop skiprows).filter
      (fun l => !(stripNL l).isEmpty)
    match mapME parseRowE dataLines with
    | .error e => .error e
    | .ok rows =>
      match mapME addTimestampE rows with
      | .error e => .error e
      | .ok cards => .ok { header := some [l0, l1], data := cards }
  | _ => .error ()

/-- Serialize one card back to a tab-separated line, as
`DataFrame.to_csv(..., sep='\t', header=False, index=False)` writes it:
a missing `study_data` becomes the empty field. -/
def cardRow (c : Card) : Str :=
  c.question ++ '\t' :: c.on_reading ++ '\t' :: c.kun_reading ++
    '\t' :: c.answer ++ '\t' :: (c.study_data.getD []) ++ ['\n']

/-- `StickyStudyDeck.save` (deck.py lines 62-69) writing to a fresh
destination file: the header lines verbatim when the header is present and
non-empty (Python truthiness; an absent or empty header writes nothing),
followed by the five deck columns of every row. -/
def saveStr (d : StickyStudyDeck) : Str :=
  (match d.header with
   | none => []
   | some hs => hs.flatten) ++ (d.data.map cardRow).flatten

/-- Sort key of `sort_values(by='timestamp')` with pandas' default
`na_position='last'`: missing timestamps compare greater than every
integer timestamp. -/
def tsLE (a b : Card) : Bool :=
  match a.timestamp, b.timestamp with
  | none, none => true
  | none, some _ => false
  | some _, none => true
  | some x, some y => decide (x ≤ y)

/-- The sort relation as a proposition, for use with `List.insertionSort`. -/
def TsLe (a b : Card) : Prop := tsLE a b = true

instance : DecidableRel TsLe := fun a b => instDecidableEqBool (tsLE a b) true

/-- The model of `sort_values(by='timestamp')`: a sort by `tsLE` with
missing timestamps last.  The relative order of rows with equal non-missing
timestamps is not guaranteed by the source (numpy quicksort); no theorem in
this file depends on it. -/
def sortTs (l : List Card) : List Card := List.insertionSort TsLe l

/-- Keep the first occurrence of every identity key, given the keys already
seen: the recursion underlying `drop_duplicates(DECK_COLS[:-1], keep='first')`. -/
def dropDupFirstAux (seen : List DeckKey) : List Card → List Card
  | [] => []
  | c :: cs =>
    if keyOf c ∈ seen then dropDupFirstAux seen cs
    else c :: dropDupFirstAux (keyOf c :: seen) cs

/-- `drop_duplicates(DECK_COLS[:-1], keep='first')`: keep the first row of
every identity key, preserving row order. -/
def dropDupFirst (l : List Card) : List Card := dropDupFirstAux [] l

/-- `drop_duplicates(DECK_COLS[:-1], keep='last')`: keep the last row of
every identity key, preserving row order. -/
def dropDupLast (l : List Card) : List Card :=
  (dropDupFirstAux [] l.reverse).reverse

/-- The card table produced by `__or__` (deck.py line 75):
`pd.concat([self.data, other.data]).sort_values(by='timestamp')
.drop_duplicates(DECK_COLS[:-1], keep='last')`. -/
def unionCards (a b : List Card) : List Card :=
  dropDupLast (sortTs (a ++ b))

/-- The deck-level `timestamp` property (deck.py lines 39-44):
`int(self.header[0].split('\t')[4].split('_')[0])` when the header is
truthy, `None` otherwise.  A missing field or non-numeric segment raises,
modelled as `.error ()`. -/
def hdrTimestampE : Option (List Str) → Except Unit (Option Int)
  | none => .ok none
  | some [] => .ok none
  | some (h0 :: _) =>
    match (splitBy '\t' h0)[4]? with
    | none => .error ()
    | some f =>
      match pyInt? (firstSeg f) with
      | none => .error ()
      | some n => .ok (some n)

/-- `StickyStudyDeck.__or__` (deck.py lines 71-84): merge the card tables,
then choose the header of whichever deck has the newest deck-level
timestamp (a deck without one loses; `self` wins ties). -/
def unionE (self other : StickyStudyDeck) : Except Unit StickyStudyDeck :=
  let df := unionCards self.data other.data
  match hdrTimestampE other.header with
  | .error e => .error e
  | .ok none => .ok { header := self.header, data := df }
  | .ok (some tOther) =>
    match hdrTimestampE self.header with
    | .error e => .error e
    | .ok none => .ok { header := other.header, data := df }
    | .ok (some tSelf) =>
      .ok { header := if tOther ≤ tSelf then self.header else other.header,
            data := df }

/-- `StickyStudyDeck.update_other` (deck.py lines 86-95): zero the source's
`study_data`, and when a target is present prepend the target's rows and
keep the first occurrence of every identity key under the target's header.
(The `timestamp` column of the zeroed copy is left untouched, as in the
source, which only assigns the `study_data` column.) -/
def update_other (self : StickyStudyDeck) (other : Option StickyStudyDeck) :
    StickyStudyDeck :=
  let df := self.data.map (fun c => { c with study_data := some [] })
  match other with
  | none => { header := none, data := df }
  | some o => { header := o.header, data := dropDupFirst (o.data ++ df) }

/-- The validity loop of `filter_kanji` for `must_include_kanji = True`
(deck.py lines 103-110): scan the question; any kanji outside the allowed
set rejects immediately, and at least one kanji must have been seen. -/
def validReqGo (is_kanji : Char → Bool) (kset : List Str) :
    Str → Bool → Bool
  | [], valid => valid
  | c :: rest, valid =>
    if is_kanji c then
      if ([c] : Str) ∈ kset then validReqGo is_kanji kset rest true
      else false
    else validReqGo is_kanji kset rest valid

/-- The validity test of `filter_kanji` for `must_include_kanji = False`
(deck.py line 112): no kanji of the question may fall outside the allowed
set. -/
def validNoReq (is_kanji : Char → Bool) (kset : List Str) (s : Str) : Bool :=
  !(s.any (fun c => is_kanji c && !(decide (([c] : Str) ∈ kset))))

/-- `StickyStudyDeck.filter_kanji` (deck.py lines 97-114).  The `is_kanji`
character predicate is imported by deck.py from `stickystudy.utils` but not
defined in the sources at hand, so it is a parameter here; the allowed
kanji are an iterable of strings, matched against one-character strings of
the question. -/
def filter_kanji (is_kanji : Char → Bool) (self : StickyStudyDeck)
    (kanji : List Str) (must_include_kanji : Bool) : StickyStudyDeck :=
  let isValid : Str → Bool :=
    if must_include_kanji then fun s => validReqGo is_kanji kanji s false
    else fun s => validNoReq is_kanji kanji s
  { header := self.header, data := self.data.filter (fun c => isValid c.question) }

/-- `parent_deck.data.set_index(DECK_COLS[:-1]).loc[df2.index]`
(main.py line 204): for each key of the child, in child order, all parent
rows carrying that key; pandas raises `KeyError`, modelled as `none`, when
some key has no parent row. -/
def selectByKeys (pcs : List Card) : List DeckKey → Option (List Card)
  | [] => some []
  | k :: ks =>
    if (pcs.filter (fkey k)).isEmpty then none
    else
      match selectByKeys pcs ks with
      | none => none
      | some r => some (pcs.filter (fkey k) ++ r)

/-- `SyncSubsets.sync_parent_to_child` (main.py lines 199-209): restrict
the parent's rows to the child's identity keys, then take the union with
the child's own deck; the result is what gets saved as the child's new
deck file. -/
def sync_parent_to_child (parent child : StickyStudyDeck) :
    Except Unit StickyStudyDeck :=
  match selectByKeys parent.data (child.data.map keyOf) with
  | none => .error ()
  | some sel =>
    unionE { header := parent.header, data := sel }
      { header := child.header, data := child.data }

/-- The edges added by `SyncSubsets.main` (main.py lines 217-219): one edge
from each subset deck to its parent deck. -/
def subsetEdges (subsets : List (String × List String)) :
    List (String × String) :=
  subsets.flatMap (fun pr => pr.2.map (fun c => (c, pr.1)))

/-- The vertices of the declared subset graph (every edge endpoint). -/
def graphVerts (es : List (String × String)) : List String :=
  es.flatMap (fun e => [e.1, e.2])

/-- One round of source elimination: keep exactly the vertices that still
have an incoming edge from a remaining vertex. -/
def pruneStep (es : List (String × String)) (vs : List String) : List String :=
  vs.filter (fun v => es.any (fun e => decide (e.2 = v) && decide (e.1 ∈ vs)))

/-- Iterated source elimination. -/
def pruneIter (es : List (String × String)) : Nat → List String → List String
  | 0, vs => vs
  | k + 1, vs => pruneIter es k (pruneStep es vs)

/-- Model of `networkx.is_directed_acyclic_graph` (an external library
call): eliminate sources repeatedly; the graph is acyclic exactly when
every vertex is eventually eliminated. -/
def isAcyclicB (es : List (String × String)) : Bool :=
  (pruneIter es (graphVerts es).length (graphVerts es)).isEmpty

/-- `SyncSubsets.main` (main.py lines 211-234): load the subset mapping,
build the subset graph, and `assert` acyclicity *before* either
synchronization pass runs.  The two passes — which alone touch deck files —
are abstracted as a state transformer `runPasses` on the deck store `σ`; a
failed assertion (the spec's `CycleError`) aborts before `runPasses` is
applied, leaving the store untouched. -/
def syncSubsetsMain {σ : Type} (subsets : List (String × List String))
    (runPasses : σ → σ) (fs : σ) : Except Unit σ :=
  if isAcyclicB (subsetEdges subsets) then .ok (runPasses fs) else .error ()

/-- The per-deck invariant of spec section 3: no two rows share an
identity key. -/
def uniqueKeys (l : List Card) : Prop := (l.map keyOf).Nodup

instance (l : List Card) : Decidable (uniqueKeys l) :=
  inferInstanceAs (Decidable ((l.map keyOf).Nodup))

/-- A nonempty vertex set every member of which has an in-neighbour inside
the set.  A finite digraph admits such a set exactly when it contains a
directed cycle: the vertices of any cycle form one. -/
def closedIn (es : List (String × String)) (S : List String) : Prop :=
  ∀ w ∈ S, ∃ u ∈ S, (u, w) ∈ es

end StickyStudy


namespace StickyStudy

/-! ## General lemmas about the dedup and sort building blocks -/

theorem filter_dropDupFirstAux (k : DeckKey) :
    ∀ (l : List Card) (seen : List DeckKey),
      (dropDupFirstAux seen l).filter (fkey k) =
        if k ∈ seen then [] else ((l.filter (fkey k)).head?).toList := by
  intro l
  induction l with
  | nil =>
    intro seen
    by_cases h : k ∈ seen <;> simp [dropDupFirstAux, h]
  | cons c cs ih =>
    intro seen
    by_cases hc : keyOf c ∈ seen
    · rw [dropDupFirstAux, if_pos hc, ih]
      by_cases hk : k ∈ seen
      · simp [hk]
      · have hf : fkey k c = false := by
          simp only [fkey, decide_eq_false_iff_not]
          intro h
          exact hk (h ▸ hc)
        simp [hk, List.filter_cons, hf]
    · rw [dropDupFirstAux, if_neg hc]
      by_cases hck : keyOf c = k
      · have hk : k ∉ seen := fun h => hc (hck ▸ h)
        have hf : fkey k c = true := by simp [fkey, hck]
        simp [List.filter_cons, hf, ih, hck, hk]
      · have hf : fkey k c = false := by simp [fkey, hck]
        by_cases hk : k ∈ seen
        · simp [List.filter_cons, hf, ih, hck, hk]
        · simp [List.filter_cons, hf, ih, hck, hk]
          intro h
          exact absurd h.symm hck

theorem filter_dropDupFirst (k : DeckKey) (l : List Card) :
    (dropDupFirst l).filter (fkey k) = ((l.filter (fkey k)).head?).toList := by
  simp [dropDupFirst, filter_dropDupFirstAux]

theorem filter_dropDupLast (k : DeckKey) (l : List Card) :
    (dropDupLast l).filter (fkey k) = ((l.filter (fkey k)).getLast?).toList := by
  rw [dropDupLast, List.filter_reverse, filter_dropDupFirstAux]
  simp only [List.mem_nil_iff, if_false, List.filter_reverse, List.head?_reverse]
  cases (l.filter (fkey k)).getLast? <;> simp

theorem filter_unionCards (k : DeckKey) (a b : List Card) :
    (unionCards a b).filter (fkey k) =
      (((sortTs (a ++ b)).filter (fkey k)).getLast?).toList :=
  filter_dropDupLast k (sortTs (a ++ b))

theorem sortTs_perm (l : List Card) : List.Perm (sortTs l) l :=
  List.perm_insertionSort TsLe l



theorem filter_key_singleton_of_uniqueKeys {l : List Card} (hu : uniqueKeys l)
    {a : Card} (ha : a ∈ l) : l.filter (fkey (keyOf a)) = [a] := by
  induction l with
  | nil => cases ha
  | cons c cs ih =>
    have hu2 : keyOf c ∉ cs.map keyOf ∧ uniqueKeys cs := by
      simpa [uniqueKeys, List.nodup_cons] using hu
    rcases List.mem_cons.mp ha with rfl | hacs
    · have hf : fkey (keyOf a) a = true := by simp [fkey]
      rw [List.filter_cons_of_pos hf]
      have : cs.filter (fkey (keyOf a)) = [] := by
        rw [List.filter_eq_nil_iff]
        intro x hx hfx
        have hxk : keyOf x = keyOf a := by simpa [fkey] using hfx
        exact hu2.1 (hxk ▸ List.mem_map_of_mem keyOf hx)
      rw [this]
    · have hne : keyOf c ≠ keyOf a := by
        intro h
        exact hu2.1 (h ▸ List.mem_map_of_mem keyOf hacs)
      have hf : fkey (keyOf a) c = false := by simp [fkey, hne]
      rw [List.filter_cons_of_neg (by simp [hf])]
      exact ih hu2.2 hacs

theorem filter_key_ne_nil_iff (k : DeckKey) (l : List Card) :
    l.filter (fkey k) ≠ [] ↔ ∃ c ∈ l, keyOf c = k := by
  rw [Ne, List.filter_eq_nil_iff]
  simp [fkey]

theorem mapME_ok_mem {α β : Type} {f : α → Except Unit β} :
    ∀ {xs : List α} {ys : List β}, mapME f xs = .ok ys →
      ∀ y ∈ ys, ∃ x ∈ xs, f x = .ok y := by
  intro xs
  induction xs with
  | nil =>
    intro ys h y hy
    cases h
    cases hy
  | cons a as ih =>
    intro ys h y hy
    unfold mapME at h
    cases hfa : f a with
    | error e => rw [hfa] at h; cases h
    | ok b =>
      rw [hfa] at h
      cases hrest : mapME f as with
      | error e => rw [hrest] at h; cases h
      | ok bs =>
        rw [hrest] at h
        cases h
        rcases List.mem_cons.mp hy with rfl | hybs
        · exact ⟨a, List.mem_cons_self a as, hfa⟩
        · rcases ih hrest y hybs with ⟨x, hx, hfx⟩
          exact ⟨x, List.mem_cons_of_mem a hx, hfx⟩

theorem unionE_ok (A B : StickyStudyDeck) {ta tb : Option Int}
    (hta : hdrTimestampE A.header = .ok ta)
    (htb : hdrTimestampE B.header = .ok tb) :
    ∃ h, unionE A B = .ok { header := h, data := unionCards A.data B.data } := by
  unfold unionE
  rw [htb]
  cases tb with
  | none => exact ⟨A.header, rfl⟩
  | some tO =>
    rw [hta]
    cases ta with
    | none => exact ⟨B.header, rfl⟩
    | some tS => exact ⟨if tO ≤ tS then A.header else B.header, rfl⟩


/-! ## Claim C10: load on a file with fewer than two lines -/

/-- C10: for every source file containing fewer than two lines (in the
Python line-iteration sense), `StickyStudyDeck.load` raises (the second
`next(f)` hits the end of the file) and never returns a deck: the loader
unconditionally reads two lines while probing for a header, before parsing
any rows. -/
theorem c10_load_fails_short_file (f : Str) (h : (pyLines f).length < 2) :
    loadE f = .error () := by
  unfold loadE
  cases hl : pyLines f with
  | nil => rfl
  | cons l0 rest =>
    cases rest with
    | nil => rfl
    | cons l1 r2 =>
      rw [hl] at h
      simp at h
      omega

/-- Witness for C10 at the empty file and at a one-line file. -/
theorem c10_load_fails_short_file_witness :
    ((pyLines [] |>.length) < 2 ∧ loadE [] = .error ()) ∧
      ((pyLines "q\ton\tkun\tans\t[5_x]\n".data |>.length) < 2 ∧
        loadE "q\ton\tkun\tans\t[5_x]\n".data = .error ()) :=
  ⟨⟨by decide, c10_load_fails_short_file [] (by decide)⟩,
   ⟨by decide, c10_load_fails_short_file _ (by decide)⟩⟩

/-! ## Claim C8: malformed study_data -/

/-- C8 counterexample: loading a deck file whose single data row carries
the non-empty `study_data` payload `[xx_1]` — whose first
underscore-delimited segment `xx` between the delimiter characters is not
numeric — is a hard failure of the whole load (`int('xx')` raises
`ValueError`), refuting the claim that such a card is treated as having no
timestamp and that a load containing such a row never hard-fails.  The
policy is not even uniform across malformed spellings: the same file with
`NULL` in place of `[xx_1]` loads fine, because pandas reads the default
NA string `NULL` as missing and extraction never sees it — that row alone
becomes a no-timestamp card. -/
theorem c8_malformed_hard_fails_counterexample :
    pyInt? (firstSeg (pyMid "[xx_1]".data)) = none ∧
      loadE "deck\tv\tw\tx\t[9_z]\n----------\na\tb\tc\td\t[xx_1]\n".data
        = .error () ∧
      loadE "deck\tv\tw\tx\t[9_z]\n----------\na\tb\tc\td\tNULL\n".data
        = .ok (StickyStudyDeck.mk
            (some ["deck\tv\tw\tx\t[9_z]\n".data, "----------\n".data])
            [Card.mk "a".data "b".data "c".data "d".data none none]) :=
  ⟨rfl, rfl, rfl⟩

/-- C8 amended: the code does not treat a malformed string as "no
timestamp".  Whenever a load succeeds, every loaded card whose
`study_data` the loader delivered as a string has a numeric first segment
and carries exactly that value as its timestamp — a string cell with a
non-numeric segment cannot survive, since `int()` raises on it and the
load fails — while a card whose `study_data` was read as missing (an empty
field or a pandas default NA string such as `NULL`) has no timestamp.  The
merge and diff-apply operators consume only the `timestamp` column
computed here, so they inherit whatever the load produced. -/
theorem c8_amended_load_hard_fails (f : Str) (d : StickyStudyDeck)
    (h : loadE f = .ok d) :
    ∀ c ∈ d.data,
      (c.study_data = none → c.timestamp = none) ∧
      (∀ s, c.study_data = some s →
        ∃ n, pyInt? (firstSeg (pyMid s)) = some n ∧ c.timestamp = some n) := by
  unfold loadE at h
  cases hl : pyLines f with
  | nil => rw [hl] at h; cases h
  | cons l0 rest =>
    cases rest with
    | nil => rw [hl] at h; cases h
    | cons l1 r2 =>
      rw [hl] at h
      simp only at h
      cases h1 : mapME parseRowE
          (((l0 :: l1 :: r2).drop (if dashSentinel l1 then 2 else 0)).filter
            (fun l => !(stripNL l).isEmpty)) with
      | error e => rw [h1] at h; cases h
      | ok rows =>
        rw [h1] at h
        dsimp only at h
        cases h2 : mapME addTimestampE rows with
        | error e => rw [h2] at h; cases h
        | ok cards =>
          rw [h2] at h
          dsimp only at h
          cases h
          intro c hc
          rcases mapME_ok_mem h2 c hc with ⟨x, _, hx⟩
          unfold addTimestampE at hx
          cases hts : rowTimestampE x.study_data with
          | error e => rw [hts] at hx; cases hx
          | ok ts =>
            rw [hts] at hx
            cases hx
            constructor
            · intro hsd
              unfold rowTimestampE at hts
              cases hxsd : x.study_data with
              | none => rw [hxsd] at hts; cases hts; rfl
              | some s =>
                rw [hxsd] at hsd
                cases hsd
            · intro s hs
              unfold rowTimestampE at hts
              cases hxsd : x.study_data with
              | none =>
                rw [hxsd] at hs
                cases hs
              | some s2 =>
                rw [hxsd] at hts hs
                cases hs
                dsimp only at hts
                cases hpi : pyInt? (firstSeg (pyMid s)) with
                | none =>
                  rw [hpi] at hts
                  cases hts
                | some n =>
                  rw [hpi] at hts
                  cases hts
                  exact ⟨n, rfl, rfl⟩

/-- Witness for C8's amended theorem at a concrete deck file holding one
stamped row and one row whose `study_data` field is the NA string `NULL`:
the stamped card's timestamp equals the parsed first segment, and the
`NULL` row survives the load as a card with no timestamp. -/
theorem c8_amended_load_hard_fails_witness :
    (∃ n, pyInt? (firstSeg (pyMid "[7_q]".data)) = some n ∧
      (Card.mk "a".data "b".data "c".data "d".data
        (some "[7_q]".data) (some 7)).timestamp = some n)
  ∧ ((Card.mk "e".data "f".data "g".data "h".data none none).study_data = none →
      (Card.mk "e".data "f".data "g".data "h".data none none).timestamp = none) :=
  ⟨(c8_amended_load_hard_fails
      "deck\tv\tw\tx\t[9_z]\n----------\na\tb\tc\td\t[7_q]\ne\tf\tg\th\tNULL\n".data
      (StickyStudyDeck.mk
        (some ["deck\tv\tw\tx\t[9_z]\n".data, "----------\n".data])
        [Card.mk "a".data "b".data "c".data "d".data (some "[7_q]".data) (some 7),
         Card.mk "e".data "f".data "g".data "h".data none none])
      rfl
      (Card.mk "a".data "b".data "c".data "d".data (some "[7_q]".data) (some 7))
      (by decide)).2
    "[7_q]".data rfl,
   (c8_amended_load_hard_fails
      "deck\tv\tw\tx\t[9_z]\n----------\na\tb\tc\td\t[7_q]\ne\tf\tg\th\tNULL\n".data
      (StickyStudyDeck.mk
        (some ["deck\tv\tw\tx\t[9_z]\n".data, "----------\n".data])
        [Card.mk "a".data "b".data "c".data "d".data (some "[7_q]".data) (some 7),
         Card.mk "e".data "f".data "g".data "h".data none none])
      rfl
      (Card.mk "e".data "f".data "g".data "h".data none none)
      (by decide)).1⟩


/-! ## Claim C1: which copy survives a merge -/

/-- C1 is refuted by the code: merging a deck holding the `木` card stamped
`[100_abc]` (timestamp 100) with a deck holding the same identity key
unstamped (no timestamp, which the claim orders below every integer), the
union keeps the *unstamped* copy.  `sort_values` places the missing
timestamp last (`na_position='last'`), and `drop_duplicates(keep='last')`
then keeps that row, so the copy with the greatest timestamp is the one
that is dropped.  The surviving card's `study_data` is `none`, not
`[100_abc]`. -/
theorem c1_union_keeps_unstamped_copy :
    unionE
        (StickyStudyDeck.mk none
          [Card.mk "木".data "もく".data "き".data "tree".data
            (some "[100_abc]".data) (some 100)])
        (StickyStudyDeck.mk none
          [Card.mk "木".data "もく".data "き".data "tree".data none none])
      = .ok (StickyStudyDeck.mk none
          [Card.mk "木".data "もく".data "き".data "tree".data none none]) ∧
    (Card.mk "木".data "もく".data "き".data "tree".data none none).study_data
      ≠ some "[100_abc]".data :=
  ⟨rfl, by decide⟩

/-! ## Claim C4: load/save round trip -/

/-- C4 is refuted by the code: on a well-formed *headerless* deck file (the
second line does not start with the dash sentinel), `load` consumes zero
header rows for the data table but still records the first two lines in
the deck's header, and `save` then writes those two lines again before the
data rows — the saved file is the original file concatenated with itself,
not the original file.  The concrete file below has two five-column rows
with empty `study_data`. -/
theorem c4_roundtrip_duplicates_headerless_file :
    ∃ d, loadE "a\tb\tc\td\t\ne\tf\tg\th\t\n".data = .ok d ∧
      saveStr d =
        "a\tb\tc\td\t\ne\tf\tg\th\t\n".data ++
          "a\tb\tc\td\t\ne\tf\tg\th\t\n".data ∧
      saveStr d ≠ "a\tb\tc\td\t\ne\tf\tg\th\t\n".data := by
  refine ⟨_, rfl, ?_, ?_⟩ <;> decide

/-! ## Claim C3: diff-apply preserves the target's progress -/

theorem head_filter_of_mem_dropDupFirst {l : List Card} {c : Card}
    (hc : c ∈ dropDupFirst l) : (l.filter (fkey (keyOf c))).head? = some c := by
  have h1 : c ∈ (dropDupFirst l).filter (fkey (keyOf c)) :=
    List.mem_filter.mpr ⟨hc, by simp [fkey]⟩
  rw [filter_dropDupFirst] at h1
  cases h : (l.filter (fkey (keyOf c))).head? with
  | none => rw [h] at h1; cases h1
  | some d =>
    rw [h] at h1
    simp only [Option.toList_some, List.mem_singleton] at h1
    rw [h1]

/-- C3: for any source deck S and target deck T, `update_other` — the
diff-apply operator `apply_new(S, T)` — (i) with an absent target returns
exactly S's cards with `study_data` reset to the empty string and no
header; (ii) with a present target keeps T's header, every result card
whose identity key occurs in T is literally a card of T (so its
`study_data` is T's, never S's), and every result card whose key does not
occur in T has empty `study_data`. -/
theorem c3_update_other_preserves_target (S T : StickyStudyDeck) :
    (update_other S none).header = none
  ∧ (update_other S none).data
      = S.data.map (fun c => { c with study_data := some [] })
  ∧ (update_other S (some T)).header = T.header
  ∧ (∀ c ∈ (update_other S (some T)).data,
      ((∃ t ∈ T.data, keyOf t = keyOf c) → c ∈ T.data)
    ∧ ((∀ t ∈ T.data, keyOf t ≠ keyOf c) → c.study_data = some [])) := by
  refine ⟨rfl, rfl, rfl, ?_⟩
  intro c hc
  have hdd : c ∈ dropDupFirst
      (T.data ++ S.data.map (fun c => { c with study_data := some [] })) := hc
  have hhead := head_filter_of_mem_dropDupFirst hdd
  rw [List.filter_append] at hhead
  constructor
  · rintro ⟨t, ht, hkt⟩
    cases hxs : T.data.filter (fkey (keyOf c)) with
    | nil =>
      exact absurd hxs ((filter_key_ne_nil_iff _ _).mpr ⟨t, ht, hkt⟩)
    | cons d ds =>
      rw [hxs] at hhead
      simp only [List.cons_append, List.head?_cons, Option.some_inj] at hhead
      have hdmem : d ∈ T.data.filter (fkey (keyOf c)) := by
        rw [hxs]
        exact List.mem_cons_self d ds
      rw [← hhead]
      exact (List.mem_filter.mp hdmem).1
  · intro hno
    have hTnil : T.data.filter (fkey (keyOf c)) = [] := by
      rw [List.filter_eq_nil_iff]
      intro t ht hft
      exact hno t ht (by simpa [fkey] using hft)
    rw [hTnil, List.nil_append] at hhead
    have hcz : c ∈ (S.data.map (fun c => { c with study_data := some [] })).filter
        (fkey (keyOf c)) := by
      cases hx : (S.data.map (fun c => { c with study_data := some [] })).filter
          (fkey (keyOf c)) with
      | nil => rw [hx] at hhead; cases hhead
      | cons d ds =>
        rw [hx] at hhead
        simp only [List.head?_cons, Option.some_inj] at hhead
        rw [← hhead]
        exact List.mem_cons_self d ds
    rcases List.mem_map.mp (List.mem_of_mem_filter hcz) with ⟨c0, _, hc0⟩
    rw [← hc0]

/-- Witness for C3 at a concrete source and target: the target holds `木`
with recorded progress, the source holds the same key with different
progress plus a new card. -/
theorem c3_update_other_preserves_target_witness :
    (update_other
        (StickyStudyDeck.mk none
          [Card.mk "木".data "もく".data "き".data "tree".data
             (some "[200_zz]".data) (some 200),
           Card.mk "水".data "すい".data "みず".data "water".data none none])
        none).header = none
  ∧ (update_other
        (StickyStudyDeck.mk none
          [Card.mk "木".data "もく".data "き".data "tree".data
             (some "[200_zz]".data) (some 200),
           Card.mk "水".data "すい".data "みず".data "water".data none none])
        none).data
      = (StickyStudyDeck.mk none
          [Card.mk "木".data "もく".data "き".data "tree".data
             (some "[200_zz]".data) (some 200),
           Card.mk "水".data "すい".data "みず".data "water".data none none]).data.map
          (fun c => { c with study_data := some [] })
  ∧ (update_other
        (StickyStudyDeck.mk none
          [Card.mk "木".data "もく".data "き".data "tree".data
             (some "[200_zz]".data) (some 200),
           Card.mk "水".data "すい".data "みず".data "water".data none none])
        (some (StickyStudyDeck.mk
          (some ["hdr\ta\tb\tc\t[100_abc]\n".data, "----------\n".data])
          [Card.mk "木".data "もく".data "き".data "tree".data
             (some "[100_abc]".data) (some 100)]))).header
      = (StickyStudyDeck.mk
          (some ["hdr\ta\tb\tc\t[100_abc]\n".data, "----------\n".data])
          [Card.mk "木".data "もく".data "き".data "tree".data
             (some "[100_abc]".data) (some 100)]).header
  ∧ (∀ c ∈ (update_other
        (StickyStudyDeck.mk none
          [Card.mk "木".data "もく".data "き".data "tree".data
             (some "[200_zz]".data) (some 200),
           Card.mk "水".data "すい".data "みず".data "water".data none none])
        (some (StickyStudyDeck.mk
          (some ["hdr\ta\tb\tc\t[100_abc]\n".data, "----------\n".data])
          [Card.mk "木".data "もく".data "き".data "tree".data
             (some "[100_abc]".data) (some 100)]))).data,
      ((∃ t ∈ (StickyStudyDeck.mk
          (some ["hdr\ta\tb\tc\t[100_abc]\n".data, "----------\n".data])
          [Card.mk "木".data "もく".data "き".data "tree".data
             (some "[100_abc]".data) (some 100)]).data, keyOf t = keyOf c) →
        c ∈ (StickyStudyDeck.mk
          (some ["hdr\ta\tb\tc\t[100_abc]\n".data, "----------\n".data])
          [Card.mk "木".data "もく".data "き".data "tree".data
             (some "[100_abc]".data) (some 100)]).data)
    ∧ ((∀ t ∈ (StickyStudyDeck.mk
          (some ["hdr\ta\tb\tc\t[100_abc]\n".data, "----------\n".data])
          [Card.mk "木".data "もく".data "き".data "tree".data
             (some "[100_abc]".data) (some 100)]).data, keyOf t ≠ keyOf c) →
        c.study_data = some [])) :=
  c3_update_other_preserves_target _ _

/-! ## Claim C7: the kanji filter -/

theorem validReqGo_eq (is_kanji : Char → Bool) (kset : List Str) :
    ∀ (s : Str) (v : Bool),
      validReqGo is_kanji kset s v =
        (s.all (fun ch => !(is_kanji ch) || decide (([ch] : Str) ∈ kset)) &&
         (v || s.any is_kanji)) := by
  intro s
  induction s with
  | nil => intro v; simp [validReqGo]
  | cons c rest ih =>
    intro v
    by_cases hk : is_kanji c
    · by_cases hm : ([c] : Str) ∈ kset
      · simp [validReqGo, hk, hm, ih]
      · simp [validReqGo, hk, hm]
    · simp [validReqGo, hk, ih]

/-- C7: `filter_kanji` keeps a card exactly when every kanji character of
its question is in the allowed set and, when `must_include_kanji` is set,
at least one kanji is present; non-kanji characters are ignored by the
test.  The result's cards are drawn unmodified from the input deck (a
subset), and the header is unchanged. -/
theorem c7_filter_kanji_characterization (is_kanji : Char → Bool)
    (D : StickyStudyDeck) (kset : List Str) (must : Bool) :
    (filter_kanji is_kanji D kset must).header = D.header
  ∧ (∀ c ∈ (filter_kanji is_kanji D kset must).data, c ∈ D.data)
  ∧ (∀ c, c ∈ (filter_kanji is_kanji D kset must).data ↔
      (c ∈ D.data
        ∧ (∀ ch ∈ c.question, is_kanji ch = true → ([ch] : Str) ∈ kset)
        ∧ (must = true → ∃ ch ∈ c.question, is_kanji ch = true))) := by
  refine ⟨rfl, ?_, ?_⟩
  · intro c hc
    exact (List.mem_filter.mp hc).1
  · intro c
    cases must with
    | false =>
      show c ∈ D.data.filter (fun c => validNoReq is_kanji kset c.question) ↔ _
      rw [List.mem_filter]
      simp [validNoReq]
    | true =>
      show c ∈ D.data.filter (fun c => validReqGo is_kanji kset c.question false) ↔ _
      rw [List.mem_filter, validReqGo_eq]
      simp only [Bool.false_or, Bool.and_eq_true, List.all_eq_true, List.any_eq_true,
        Bool.or_eq_true, Bool.not_eq_true', decide_eq_true_eq, true_implies]
      constructor
      · rintro ⟨hm, hall, hany⟩
        refine ⟨hm, ?_, hany⟩
        intro ch hch hk
        rcases hall ch hch with h | h
        · rw [hk] at h; cases h
        · exact h
      · rintro ⟨hm, hall, hany⟩
        refine ⟨hm, ?_, hany⟩
        intro ch hch
        by_cases hk : is_kanji ch
        · exact Or.inr (hall ch hch hk)
        · exact Or.inl (by simpa using hk)

/-- Witness for C7 with the CJK-ideograph range as the kanji predicate, an
allowed set of two kanji, and a deck exercising both filter outcomes. -/
theorem c7_filter_kanji_characterization_witness :
    (filter_kanji (fun ch => decide (0x4e00 ≤ ch.toNat ∧ ch.toNat ≤ 0x9fff))
        (StickyStudyDeck.mk none
          [Card.mk "木".data "もく".data "き".data "tree".data none none,
           Card.mk "火".data "か".data "ひ".data "fire".data none none,
           Card.mk "あい".data "".data "".data "love".data none none])
        ["木".data, "水".data] true).header
      = (StickyStudyDeck.mk none
          [Card.mk "木".data "もく".data "き".data "tree".data none none,
           Card.mk "火".data "か".data "ひ".data "fire".data none none,
           Card.mk "あい".data "".data "".data "love".data none none]).header
  ∧ (∀ c ∈ (filter_kanji (fun ch => decide (0x4e00 ≤ ch.toNat ∧ ch.toNat ≤ 0x9fff))
        (StickyStudyDeck.mk none
          [Card.mk "木".data "もく".data "き".data "tree".data none none,
           Card.mk "火".data "か".data "ひ".data "fire".data none none,
           Card.mk "あい".data "".data "".data "love".data none none])
        ["木".data, "水".data] true).data,
      c ∈ (StickyStudyDeck.mk none
          [Card.mk "木".data "もく".data "き".data "tree".data none none,
           Card.mk "火".data "か".data "ひ".data "fire".data none none,
           Card.mk "あい".data "".data "".data "love".data none none]).data)
  ∧ (∀ c, c ∈ (filter_kanji (fun ch => decide (0x4e00 ≤ ch.toNat ∧ ch.toNat ≤ 0x9fff))
        (StickyStudyDeck.mk none
          [Card.mk "木".data "もく".data "き".data "tree".data none none,
           Card.mk "火".data "か".data "ひ".data "fire".data none none,
           Card.mk "あい".data "".data "".data "love".data none none])
        ["木".data, "水".data] true).data ↔
      (c ∈ (StickyStudyDeck.mk none
          [Card.mk "木".data "もく".data "き".data "tree".data none none,
           Card.mk "火".data "か".data "ひ".data "fire".data none none,
           Card.mk "あい".data "".data "".data "love".data none none]).data
        ∧ (∀ ch ∈ c.question,
            (fun ch => decide (0x4e00 ≤ ch.toNat ∧ ch.toNat ≤ 0x9fff)) ch = true →
              ([ch] : Str) ∈ ["木".data, "水".data])
        ∧ (true = true → ∃ ch ∈ c.question,
            (fun ch => decide (0x4e00 ≤ ch.toNat ∧ ch.toNat ≤ 0x9fff)) ch = true))) :=
  c7_filter_kanji_characterization _ _ _ _


/-! ## Claim C5: idempotence of union -/

theorem count_filter_key (x : Card) (l : List Card) :
    (l.filter (fkey (keyOf x))).count x = l.count x := by
  induction l with
  | nil => rfl
  | cons c cs ih =>
    by_cases hc : fkey (keyOf x) c = true
    · rw [List.filter_cons_of_pos hc, List.count_cons, List.count_cons, ih]
    · have hne : ¬((c == x) = true) := by
        simp only [beq_iff_eq]
        intro h
        rw [h] at hc
        simp [fkey] at hc
      rw [List.filter_cons_of_neg (by simpa using hc), List.count_cons, if_neg hne,
        Nat.add_zero, ih]

theorem perm_pair_same_eq {α : Type} {l : List α} {c : α}
    (h : List.Perm l [c, c]) : l = [c, c] := by
  have hlen := h.length_eq
  have hmem : ∀ y ∈ l, y = c := fun y hy => by
    have h2 := h.mem_iff.mp hy
    simpa using h2
  cases l with
  | nil => simp at hlen
  | cons y1 t =>
    cases t with
    | nil => simp at hlen
    | cons y2 t2 =>
      cases t2 with
      | nil => rw [hmem y1 (by simp), hmem y2 (by simp)]
      | cons y3 t3 =>
        simp only [List.length_cons, List.length_nil] at hlen
        omega

theorem count_unionCards_self {l : List Card} (hu : uniqueKeys l) (x : Card) :
    (unionCards l l).count x = l.count x := by
  rw [← count_filter_key x (unionCards l l), ← count_filter_key x l, filter_unionCards]
  cases hfl : l.filter (fkey (keyOf x)) with
  | nil =>
    have hcat : (l ++ l).filter (fkey (keyOf x)) = [] := by
      rw [List.filter_append, hfl]
      rfl
    have hperm := (sortTs_perm (l ++ l)).filter (fkey (keyOf x))
    rw [hcat] at hperm
    rw [hperm.eq_nil]
    rfl
  | cons c cs =>
    have hcmem : c ∈ l.filter (fkey (keyOf x)) := by
      rw [hfl]
      exact List.mem_cons_self c cs
    have hcl : c ∈ l := List.mem_of_mem_filter hcmem
    have hck : keyOf c = keyOf x := by
      have h2 := (List.mem_filter.mp hcmem).2
      simpa [fkey] using h2
    have hfl1 : l.filter (fkey (keyOf x)) = [c] := by
      rw [← hck]
      exact filter_key_singleton_of_uniqueKeys hu hcl
    have hcat : (l ++ l).filter (fkey (keyOf x)) = [c, c] := by
      rw [List.filter_append, hfl1]
      rfl
    have hperm := (sortTs_perm (l ++ l)).filter (fkey (keyOf x))
    rw [hcat] at hperm
    have hcs : c :: cs = [c] := hfl.symm.trans hfl1
    rw [perm_pair_same_eq hperm, hcs]
    rfl

/-- C5: union of a deck with itself (for a deck satisfying the
unique-identity-key invariant and carrying a parseable header timestamp,
or no header).  The result has exactly D's header and its cards are a
permutation of D's cards — the same cards with the same `study_data`. -/
theorem c5_union_idempotent (D : StickyStudyDeck) (t : Option Int)
    (hD : uniqueKeys D.data) (ht : hdrTimestampE D.header = .ok t) :
    ∃ u, unionE D D = .ok u ∧ u.header = D.header ∧ List.Perm u.data D.data := by
  have hdata : List.Perm (unionCards D.data D.data) D.data :=
    List.perm_iff_count.mpr (fun x => count_unionCards_self hD x)
  unfold unionE
  rw [ht]
  cases t with
  | none => exact ⟨_, rfl, rfl, hdata⟩
  | some ts =>
    dsimp only
    rw [if_pos (le_refl ts)]
    exact ⟨_, rfl, rfl, hdata⟩

/-- Witness for C5 at a two-card deck with a stamped header. -/
theorem c5_union_idempotent_witness :
    ∃ u, unionE
        (StickyStudyDeck.mk
          (some ["deck\tv\tw\tx\t9_z\n".data, "----------\n".data])
          [Card.mk "a".data "b".data "c".data "d".data (some "[7_q]".data) (some 7),
           Card.mk "e".data "f".data "g".data "h".data none none])
        (StickyStudyDeck.mk
          (some ["deck\tv\tw\tx\t9_z\n".data, "----------\n".data])
          [Card.mk "a".data "b".data "c".data "d".data (some "[7_q]".data) (some 7),
           Card.mk "e".data "f".data "g".data "h".data none none])
      = .ok u ∧
      u.header = (StickyStudyDeck.mk
          (some ["deck\tv\tw\tx\t9_z\n".data, "----------\n".data])
          [Card.mk "a".data "b".data "c".data "d".data (some "[7_q]".data) (some 7),
           Card.mk "e".data "f".data "g".data "h".data none none]).header ∧
      List.Perm u.data (StickyStudyDeck.mk
          (some ["deck\tv\tw\tx\t9_z\n".data, "----------\n".data])
          [Card.mk "a".data "b".data "c".data "d".data (some "[7_q]".data) (some 7),
           Card.mk "e".data "f".data "g".data "h".data none none]).data :=
  c5_union_idempotent
    (StickyStudyDeck.mk
      (some ["deck\tv\tw\tx\t9_z\n".data, "----------\n".data])
      [Card.mk "a".data "b".data "c".data "d".data (some "[7_q]".data) (some 7),
       Card.mk "e".data "f".data "g".data "h".data none none])
    (some 9) (by decide) (by decide)


/-! ## Claim C6: a cyclic subset mapping aborts before any write -/

theorem chain_pred {R : String → String → Prop} :
    ∀ (l : List String) (v : String), List.Chain R v l →
      ∀ w ∈ l, ∃ u ∈ v :: l, R u w := by
  intro l
  induction l with
  | nil =>
    intro v _ w hw
    cases hw
  | cons b bs ih =>
    intro v h w hw
    cases h with
    | cons hr hc =>
      rcases List.mem_cons.mp hw with rfl | hwbs
      · exact ⟨v, List.mem_cons_self v (w :: bs), hr⟩
      · rcases ih b hc w hwbs with ⟨u, hu, hruw⟩
        exact ⟨u, List.mem_cons_of_mem v hu, hruw⟩

theorem mem_of_getLast?_some {α : Type} :
    ∀ {l : List α} {a : α}, l.getLast? = some a → a ∈ l := by
  intro l
  induction l with
  | nil =>
    intro a h
    cases h
  | cons b t ih =>
    intro a h
    cases t with
    | nil =>
      rw [List.getLast?_singleton] at h
      cases h
      exact List.mem_cons_self _ _
    | cons c t2 =>
      rw [List.getLast?_cons_cons] at h
      exact List.mem_cons_of_mem b (ih h)

theorem closedIn_subset_pruneStep {es : List (String × String)} {S vs : List String}
    (hcl : closedIn es S) (hsub : ∀ x ∈ S, x ∈ vs) :
    ∀ x ∈ S, x ∈ pruneStep es vs := by
  intro x hx
  rcases hcl x hx with ⟨u, hu, hedge⟩
  refine List.mem_filter.mpr ⟨hsub x hx, ?_⟩
  rw [List.any_eq_true]
  exact ⟨(u, x), hedge, by simp [hsub u hu]⟩

theorem closedIn_subset_pruneIter {es : List (String × String)} {S : List String}
    (hcl : closedIn es S) :
    ∀ (k : Nat) (vs : List String), (∀ x ∈ S, x ∈ vs) →
      ∀ x ∈ S, x ∈ pruneIter es k vs := by
  intro k
  induction k with
  | zero =>
    intro vs hsub
    exact hsub
  | succ n ih =>
    intro vs hsub
    exact ih (pruneStep es vs) (closedIn_subset_pruneStep hcl hsub)

theorem isAcyclicB_eq_false_of_closedIn {es : List (String × String)}
    {S : List String} (hne : S ≠ []) (hcl : closedIn es S) :
    isAcyclicB es = false := by
  rcases List.exists_mem_of_ne_nil S hne with ⟨x, hx⟩
  have hsub : ∀ y ∈ S, y ∈ graphVerts es := by
    intro y hy
    rcases hcl y hy with ⟨u, _, hedge⟩
    unfold graphVerts
    rw [List.mem_flatMap]
    exact ⟨(u, y), hedge, by simp⟩
  have hx2 : x ∈ pruneIter es (graphVerts es).length (graphVerts es) :=
    closedIn_subset_pruneIter hcl _ _ hsub x hx
  unfold isAcyclicB
  cases hpe : pruneIter es (graphVerts es).length (graphVerts es) with
  | nil =>
    rw [hpe] at hx2
    cases hx2
  | cons y t => rfl

/-- C6: when the declared parent/child mapping contains a directed cycle —
witnessed by a nonempty edge chain from some deck name `v` back to itself
in the subset graph — `SyncSubsets.main` fails its acyclicity assertion
(the spec's `CycleError`) and returns without running either
synchronization pass, for every state of the deck store and every possible
behaviour of the passes: no deck file is written. -/
theorem c6_cycle_aborts_sync {σ : Type} (subsets : List (String × List String))
    (runPasses : σ → σ) (fs : σ) (v : String) (l : List String)
    (hne : l ≠ [])
    (hchain : List.Chain (fun a b => (a, b) ∈ subsetEdges subsets) v l)
    (hlast : l.getLast? = some v) :
    syncSubsetsMain subsets runPasses fs = .error () := by
  have hvl : v ∈ l := mem_of_getLast?_some hlast
  have hcl : closedIn (subsetEdges subsets) l := by
    intro w hw
    rcases chain_pred l v hchain w hw with ⟨u, hu, hedge⟩
    rcases List.mem_cons.mp hu with rfl | hul
    · exact ⟨u, hvl, hedge⟩
    · exact ⟨u, hul, hedge⟩
  unfold syncSubsetsMain
  rw [isAcyclicB_eq_false_of_closedIn hne hcl]
  simp

/-- Witness for C6 on the two-cycle `A ⊆ B ⊆ A` over an arbitrary pass
behaviour (here the identity on a list-of-names store). -/
theorem c6_cycle_aborts_sync_witness :
    syncSubsetsMain [("A", ["B"]), ("B", ["A"])]
      (fun fs : List String => fs) [] = .error () :=
  c6_cycle_aborts_sync [("A", ["B"]), ("B", ["A"])]
    (fun fs : List String => fs) [] "A" ["B", "A"] (by decide)
    (List.Chain.cons (by decide) (List.Chain.cons (by decide) List.Chain.nil))
    (by decide)

/-! ## Claim C9: pass 2 never adds cards to a child -/

theorem selectByKeys_ok (pcs : List Card) :
    ∀ ks : List DeckKey, (∀ k ∈ ks, ∃ q ∈ pcs, keyOf q = k) →
      ∃ sel, selectByKeys pcs ks = some sel ∧ ∀ s ∈ sel, keyOf s ∈ ks := by
  intro ks
  induction ks with
  | nil =>
    intro _
    exact ⟨[], rfl, by intro s hs; cases hs⟩
  | cons k kt ih =>
    intro h
    have hne : pcs.filter (fkey k) ≠ [] :=
      (filter_key_ne_nil_iff k pcs).mpr (h k (List.mem_cons_self k kt))
    have hemp : (pcs.filter (fkey k)).isEmpty = false := by
      cases hcase : pcs.filter (fkey k) with
      | nil => exact absurd hcase hne
      | cons a t => rfl
    rcases ih (fun k2 hk2 => h k2 (List.mem_cons_of_mem k hk2)) with ⟨r, hr, hrk⟩
    refine ⟨pcs.filter (fkey k) ++ r, ?_, ?_⟩
    · show (if (pcs.filter (fkey k)).isEmpty then none
        else match selectByKeys pcs kt with
          | none => none
          | some r => some (pcs.filter (fkey k) ++ r)) = some (pcs.filter (fkey k) ++ r)
      rw [hemp, hr]
      rfl
    · intro s hs
      rcases List.mem_append.mp hs with hsl | hsr
      · have hf := (List.mem_filter.mp hsl).2
        have hks : keyOf s = k := by simpa [fkey] using hf
        rw [hks]
        exact List.mem_cons_self k kt
      · exact List.mem_cons_of_mem k (hrk s hsr)

theorem getLast?_cons_some {α : Type} (c : α) (t : List α) :
    ∃ d, (c :: t).getLast? = some d := by
  induction t generalizing c with
  | nil => exact ⟨c, List.getLast?_singleton c⟩
  | cons e t2 ih =>
    rcases ih e with ⟨d, hd⟩
    exact ⟨d, by rw [List.getLast?_cons_cons]; exact hd⟩

theorem exists_key_unionCards_iff (k : DeckKey) (a b : List Card) :
    (∃ c ∈ unionCards a b, keyOf c = k) ↔ ∃ c ∈ a ++ b, keyOf c = k := by
  rw [← filter_key_ne_nil_iff, ← filter_key_ne_nil_iff, filter_unionCards]
  constructor
  · intro h hnil
    have hperm := (sortTs_perm (a ++ b)).filter (fkey k)
    rw [hnil] at hperm
    rw [hperm.eq_nil] at h
    exact h rfl
  · intro h hnil2
    have hperm := (sortTs_perm (a ++ b)).filter (fkey k)
    cases hcase : (sortTs (a ++ b)).filter (fkey k) with
    | nil =>
      rw [hcase] at hperm
      exact h (List.Perm.eq_nil hperm.symm)
    | cons c t =>
      rw [hcase] at hnil2
      rcases getLast?_cons_some c t with ⟨d, hd⟩
      rw [hd] at hnil2
      cases hnil2

/-- C9: in pass 2 (parents to children), for a parent `p` and child `c`
whose identity keys all occur in `p` (and whose headers carry parseable
timestamps or are absent), the deck that `sync_parent_to_child` produces —
the deck persisted for the child — has exactly the identity keys the child
already had: the child gains no card, only progress flows down. -/
theorem c9_child_keyset_preserved (parent child : StickyStudyDeck)
    (tp tc : Option Int)
    (hkeys : ∀ c ∈ child.data, ∃ q ∈ parent.data, keyOf q = keyOf c)
    (hp : hdrTimestampE parent.header = .ok tp)
    (hch : hdrTimestampE child.header = .ok tc) :
    ∃ d, sync_parent_to_child parent child = .ok d ∧
      ∀ k, (∃ c ∈ d.data, keyOf c = k) ↔ (∃ c ∈ child.data, keyOf c = k) := by
  have hks : ∀ k ∈ child.data.map keyOf, ∃ q ∈ parent.data, keyOf q = k := by
    intro k hk
    rcases List.mem_map.mp hk with ⟨c, hc, rfl⟩
    exact hkeys c hc
  rcases selectByKeys_ok parent.data (child.data.map keyOf) hks with ⟨sel, hsel, hselk⟩
  rcases unionE_ok (StickyStudyDeck.mk parent.header sel)
      (StickyStudyDeck.mk child.header child.data) hp hch with ⟨h, hu⟩
  refine ⟨StickyStudyDeck.mk h (unionCards sel child.data), ?_, ?_⟩
  · unfold sync_parent_to_child
    rw [hsel]
    exact hu
  · intro k
    constructor
    · rintro ⟨c, hc, rfl⟩
      have hmem : ∃ c2 ∈ sel ++ child.data, keyOf c2 = keyOf c :=
        (exists_key_unionCards_iff (keyOf c) sel child.data).mp ⟨c, hc, rfl⟩
      rcases hmem with ⟨c2, hc2, hk2⟩
      rcases List.mem_append.mp hc2 with hsl | hcl2
      · have hkin := hselk c2 hsl
        rcases List.mem_map.mp hkin with ⟨c3, hc3, hk3⟩
        exact ⟨c3, hc3, by rw [hk3, hk2]⟩
      · exact ⟨c2, hcl2, hk2⟩
    · rintro ⟨c, hc, rfl⟩
      exact (exists_key_unionCards_iff (keyOf c) sel child.data).mpr
        ⟨c, List.mem_append.mpr (Or.inr hc), rfl⟩

/-- Witness for C9: a two-card stamped parent and a one-card unstamped
child whose key occurs in the parent. -/
theorem c9_child_keyset_preserved_witness :
    ∃ d, sync_parent_to_child
        (StickyStudyDeck.mk none
          [Card.mk "木".data "もく".data "き".data "tree".data
             (some "[100_abc]".data) (some 100),
           Card.mk "水".data "すい".data "みず".data "water".data
             (some "[50_q]".data) (some 50)])
        (StickyStudyDeck.mk none
          [Card.mk "木".data "もく".data "き".data "tree".data none none])
      = .ok d ∧
      ∀ k, (∃ c ∈ d.data, keyOf c = k) ↔
        (∃ c ∈ (StickyStudyDeck.mk none
          [Card.mk "木".data "もく".data "き".data "tree".data none none]).data,
          keyOf c = k) :=
  c9_child_keyset_preserved
    (StickyStudyDeck.mk none
      [Card.mk "木".data "もく".data "き".data "tree".data
         (some "[100_abc]".data) (some 100),
       Card.mk "水".data "すい".data "みず".data "water".data
         (some "[50_q]".data) (some 50)])
    (StickyStudyDeck.mk none
      [Card.mk "木".data "もく".data "き".data "tree".data none none])
    none none (by decide) rfl rfl

end StickyStudy
